import Mathlib

/-!
# genkit-go-examples: the image helper and the two demo programs

A shallow embedding of

* `02_ollama_multimodal/main.go`: `getImage`, `getContentTypeFromExtension`
  and the response-printing tail of `main`;
* `01_genkit_base/main.go`: the handler registered as `shortTerrorFlow`.

The Go standard-library functions the programs call (`http.DetectContentType`,
`filepath.Ext`, `strings.ToLower`, `base64.StdEncoding.EncodeToString`) are
embedded after the Go sources (`net/http/sniff.go`, `path/filepath/path.go`,
`strings/strings.go`, `encoding/base64/base64.go`).

Conventions.

* A byte is a natural number below 256 and a byte buffer is a `List Nat`
  (`IsByteBuffer` says that the elements are bytes).
* A Go string holding text (a path, a content type, a data URI) is a Lean
  `String`, that is, a well-formed UTF-8 string; on such strings the byte loops
  of `filepath.Ext` and `strings.ToLower` act character by character.
* Paths use the Unix separator `/`, and `int` has 64 bits.
* The table `unicode.ToLower`, used by `strings.ToLower` on strings that are not
  all ASCII, is a parameter `unicodeToLower` of the definitions that reach it.
* The file system, the command line and the model backend are parameters.  A
  run of a program is described by what it writes to standard output and its
  exit status; the lines `log.Fatal` writes to standard error are left out.
-/

set_option autoImplicit false

namespace GenkitExamples

/-! ## `net/http`: content sniffing -/

/-- The bytes of an ASCII string literal. -/
def bytes (s : String) : List Nat := s.data.map Char.toNat

/-- A buffer is well formed when each of its elements is a byte. -/
def IsByteBuffer (data : List Nat) : Prop := ∀ b ∈ data, b < 256

instance instDecidableIsByteBuffer (data : List Nat) : Decidable (IsByteBuffer data) := by
  unfold IsByteBuffer
  infer_instance

/-- The sniffer looks at no more than `sniffLen` bytes. -/
def sniffLen : Nat := 512

/-- Go `isWS`: whitespace bytes `\t`, `\n`, `\x0c`, `\r` and space. -/
def isWS (b : Nat) : Bool :=
  b == 0x09 || b == 0x0A || b == 0x0C || b == 0x0D || b == 0x20

/-- Go `isTT`: tag-terminating bytes, space and `>`. -/
def isTT (b : Nat) : Bool :=
  b == 0x20 || b == 0x3E

/-- Go `sniffSig`: the five kinds of signature of `sniff.go`. -/
inductive sniffSig where
  | exactSig (sig : List Nat) (ct : String)
  | maskedSig (mask pat : List Nat) (skipWS : Bool) (ct : String)
  | htmlSig (h : List Nat)
  | mp4Sig
  | textSig

/-- Loop of `maskedSig.match`: every pattern byte equals the data byte under
the mask.  The caller has checked that `data` and `mask` are long enough. -/
def maskedLoop : List Nat → List Nat → List Nat → Bool
  | _, _, [] => true
  | d :: ds, m :: ms, pb :: ps => if d &&& m != pb then false else maskedLoop ds ms ps
  | _, _, _ :: _ => false

/-- Loop of `htmlSig.match`: the data byte is upper-cased (`db &= 0xDF`) where
the signature byte is an upper-case letter, and compared. -/
def htmlLoop : List Nat → List Nat → Bool
  | [], _ => true
  | b :: bs, db :: ds =>
      let db := if 0x41 ≤ b ∧ b ≤ 0x5A then db &&& 0xDF else db
      if b != db then false else htmlLoop bs ds
  | _ :: _, [] => false

/-- Loop of `mp4Sig.match`: `st` runs over `8, 12, 16, ...` below `boxSize`;
`n` is the number of iterations left.  Offset 12 is skipped. -/
def mp4Loop (data : List Nat) : Nat → Nat → Bool
  | _, 0 => false
  | st, n + 1 =>
      if st = 12 then mp4Loop data (st + 4) n
      else if (data.drop st).take 3 = bytes "mp4" then true
      else mp4Loop data (st + 4) n

/-- Go `binary.BigEndian.Uint32` of the first four bytes. -/
def bigEndianUint32 (data : List Nat) : Nat :=
  data.getD 3 0 ||| data.getD 2 0 <<< 8 ||| data.getD 1 0 <<< 16 ||| data.getD 0 0 <<< 24

/-- Bytes that make `textSig` reject the data as binary. -/
def isBinaryByte (b : Nat) : Bool :=
  decide (b ≤ 0x08) || b == 0x0B || (decide (0x0E ≤ b) && decide (b ≤ 0x1A)) ||
    (decide (0x1C ≤ b) && decide (b ≤ 0x1F))

/-- Go `sniffSig.match`: the MIME type of the data, or `""` if this signature
does not apply. -/
def sniffSig.match : sniffSig → List Nat → Nat → String
  | .exactSig sig ct, data, _ =>
      if sig.isPrefixOf data then ct else ""
  | .maskedSig mask pat skipWS ct, data, firstNonWS =>
      let data := if skipWS then data.drop firstNonWS else data
      if pat.length ≠ mask.length then ""
      else if data.length < pat.length then ""
      else if maskedLoop data mask pat then ct else ""
  | .htmlSig h, data, firstNonWS =>
      let data := data.drop firstNonWS
      if data.length < h.length + 1 then ""
      else if !htmlLoop h data then ""
      else if !isTT (data.getD h.length 0) then ""
      else "text/html; charset=utf-8"
  | .mp4Sig, data, _ =>
      if data.length < 12 then ""
      else
        let boxSize := bigEndianUint32 (data.take 4)
        if data.length < boxSize ∨ boxSize % 4 ≠ 0 then ""
        else if (data.drop 4).take 4 ≠ bytes "ftyp" then ""
        else if mp4Loop data 8 ((boxSize - 8) / 4) then "video/mp4" else ""
  | .textSig, data, firstNonWS =>
      if (data.drop firstNonWS).any isBinaryByte then "" else "text/plain; charset=utf-8"

/-- Thirty-four NUL bytes, the head of the Embedded OpenType pattern. -/
def nul34 : List Nat := List.replicate 34 0

/-- Go `sniffSignatures`: the table of `sniff.go`, in its order. -/
def sniffSignatures : List sniffSig :=
  [ .htmlSig (bytes "<!DOCTYPE HTML"),
    .htmlSig (bytes "<HTML"),
    .htmlSig (bytes "<HEAD"),
    .htmlSig (bytes "<SCRIPT"),
    .htmlSig (bytes "<IFRAME"),
    .htmlSig (bytes "<H1"),
    .htmlSig (bytes "<DIV"),
    .htmlSig (bytes "<FONT"),
    .htmlSig (bytes "<TABLE"),
    .htmlSig (bytes "<A"),
    .htmlSig (bytes "<STYLE"),
    .htmlSig (bytes "<TITLE"),
    .htmlSig (bytes "<B"),
    .htmlSig (bytes "<BODY"),
    .htmlSig (bytes "<BR"),
    .htmlSig (bytes "<P"),
    .htmlSig (bytes "<!--"),
    .maskedSig [0xFF, 0xFF, 0xFF, 0xFF, 0xFF] (bytes "<?xml") true "text/xml; charset=utf-8",
    .exactSig (bytes "%PDF-") "application/pdf",
    .exactSig (bytes "%!PS-Adobe-") "application/postscript",
    -- UTF BOMs
    .maskedSig [0xFF, 0xFF, 0x00, 0x00] [0xFE, 0xFF, 0x00, 0x00] false
      "text/plain; charset=utf-16be",
    .maskedSig [0xFF, 0xFF, 0x00, 0x00] [0xFF, 0xFE, 0x00, 0x00] false
      "text/plain; charset=utf-16le",
    .maskedSig [0xFF, 0xFF, 0xFF, 0x00] [0xEF, 0xBB, 0xBF, 0x00] false
      "text/plain; charset=utf-8",
    -- image types
    .exactSig [0x00, 0x00, 0x01, 0x00] "image/x-icon",
    .exactSig [0x00, 0x00, 0x02, 0x00] "image/x-icon",
    .exactSig (bytes "BM") "image/bmp",
    .exactSig (bytes "GIF87a") "image/gif",
    .exactSig (bytes "GIF89a") "image/gif",
    .maskedSig [0xFF, 0xFF, 0xFF, 0xFF, 0x00, 0x00, 0x00, 0x00, 0xFF, 0xFF, 0xFF, 0xFF, 0xFF, 0xFF]
      (bytes "RIFF" ++ [0, 0, 0, 0] ++ bytes "WEBPVP") false "image/webp",
    .exactSig ([0x89] ++ bytes "PNG" ++ [0x0D, 0x0A, 0x1A, 0x0A]) "image/png",
    .exactSig [0xFF, 0xD8, 0xFF] "image/jpeg",
    -- audio and video types
    .maskedSig [0xFF, 0xFF, 0xFF, 0xFF, 0x00, 0x00, 0x00, 0x00, 0xFF, 0xFF, 0xFF, 0xFF]
      (bytes "FORM" ++ [0, 0, 0, 0] ++ bytes "AIFF") false "audio/aiff",
    .maskedSig [0xFF, 0xFF, 0xFF] (bytes "ID3") false "audio/mpeg",
    .maskedSig [0xFF, 0xFF, 0xFF, 0xFF, 0xFF] (bytes "OggS" ++ [0]) false "application/ogg",
    .maskedSig [0xFF, 0xFF, 0xFF, 0xFF, 0xFF, 0xFF, 0xFF, 0xFF]
      (bytes "MThd" ++ [0x00, 0x00, 0x00, 0x06]) false "audio/midi",
    .maskedSig [0xFF, 0xFF, 0xFF, 0xFF, 0x00, 0x00, 0x00, 0x00, 0xFF, 0xFF, 0xFF, 0xFF]
      (bytes "RIFF" ++ [0, 0, 0, 0] ++ bytes "AVI ") false "video/avi",
    .maskedSig [0xFF, 0xFF, 0xFF, 0xFF, 0x00, 0x00, 0x00, 0x00, 0xFF, 0xFF, 0xFF, 0xFF]
      (bytes "RIFF" ++ [0, 0, 0, 0] ++ bytes "WAVE") false "audio/wave",
    .mp4Sig,
    .exactSig [0x1A, 0x45, 0xDF, 0xA3] "video/webm",
    -- font types
    .maskedSig (nul34 ++ [0xFF, 0xFF]) (nul34 ++ bytes "LP") false
      "application/vnd.ms-fontobject",
    .exactSig [0x00, 0x01, 0x00, 0x00] "font/ttf",
    .exactSig (bytes "OTTO") "font/otf",
    .exactSig (bytes "ttcf") "font/collection",
    .exactSig (bytes "wOFF") "font/woff",
    .exactSig (bytes "wOF2") "font/woff2",
    -- archive types
    .exactSig [0x1F, 0x8B, 0x08] "application/x-gzip",
    .exactSig (bytes "PK" ++ [0x03, 0x04]) "application/zip",
    .exactSig (bytes "Rar!" ++ [0x1A, 0x07, 0x00]) "application/x-rar-compressed",
    .exactSig (bytes "Rar!" ++ [0x1A, 0x07, 0x01, 0x00]) "application/x-rar-compressed",
    .exactSig [0x00, 0x61, 0x73, 0x6D] "application/wasm",
    .textSig ]

/-- The loop of `DetectContentType` over the signature table: the first
non-empty answer wins, the fallback is `application/octet-stream`. -/
def firstMatch : List sniffSig → List Nat → Nat → String
  | [], _, _ => "application/octet-stream"
  | sig :: sigs, data, firstNonWS =>
      let ct := sig.match data firstNonWS
      if ct ≠ "" then ct else firstMatch sigs data firstNonWS

/-- Go `http.DetectContentType`. -/
def DetectContentType (data : List Nat) : String :=
  let data := if data.length > sniffLen then data.take sniffLen else data
  let firstNonWS := (data.takeWhile isWS).length
  firstMatch sniffSignatures data firstNonWS

/-! ## `path/filepath` and `strings` -/

/-- Go `os.IsPathSeparator` on Unix. -/
def isPathSeparator (c : Char) : Bool := c == '/'

/-- Loop of `filepath.Ext`, `i` running down from `len(path) - 1`; the argument
is `i + 1`.  It stops at a separator and returns `path[i:]` at a dot. -/
def extLoop (path : List Char) : Nat → List Char
  | 0 => []
  | i + 1 =>
      let c := path.getD i ' '
      if isPathSeparator c then []
      else if c = '.' then path.drop i
      else extLoop path i

/-- Go `filepath.Ext`. -/
def Ext (path : String) : String :=
  String.mk (extLoop path.data path.data.length)

/-- Test `c < utf8.RuneSelf` of `strings.ToLower`. -/
def isASCII (c : Char) : Bool := decide (c.toNat < 0x80)

/-- ASCII branch of `strings.ToLower`: `c += 'a' - 'A'` for `'A' ≤ c ≤ 'Z'`. -/
def lowerASCII (c : Char) : Char :=
  if 0x41 ≤ c.toNat ∧ c.toNat ≤ 0x5A then Char.ofNat (c.toNat + 0x20) else c

/-- Go `strings.ToLower`.  An all-ASCII string takes the byte loop; any other
string is `strings.Map(unicode.ToLower, s)`, where the table `unicode.ToLower`
is the parameter `unicodeToLower`. -/
def ToLower (unicodeToLower : Char → Char) (s : String) : String :=
  if s.data.all isASCII then String.mk (s.data.map lowerASCII)
  else String.mk (s.data.map unicodeToLower)

/-! ## `encoding/base64` -/

/-- Go `encodeStd`, the standard alphabet. -/
def encodeStd : String :=
  "ABCDEFGHIJKLMNOPQRSTUVWXYZabcdefghijklmnopqrstuvwxyz0123456789+/"

/-- Table lookup `enc.encode[i]`. -/
def encodeByte (i : Nat) : Char := encodeStd.data.getD i 'A'

/-- Go `StdPadding`. -/
def padChar : Char := '='

/-- Go `(*Encoding).Encode` for `StdEncoding`: three bytes give four
characters, a final block of one or two bytes is padded. -/
def Encode : List Nat → List Char
  | [] => []
  | [a] =>
      let val := a <<< 16
      [encodeByte (val >>> 18 &&& 0x3F), encodeByte (val >>> 12 &&& 0x3F), padChar, padChar]
  | [a, b] =>
      let val := a <<< 16 ||| b <<< 8
      [encodeByte (val >>> 18 &&& 0x3F), encodeByte (val >>> 12 &&& 0x3F),
        encodeByte (val >>> 6 &&& 0x3F), padChar]
  | a :: b :: c :: rest =>
      let val := a <<< 16 ||| b <<< 8 ||| c
      [encodeByte (val >>> 18 &&& 0x3F), encodeByte (val >>> 12 &&& 0x3F),
        encodeByte (val >>> 6 &&& 0x3F), encodeByte (val &&& 0x3F)] ++ Encode rest

/-- Go `base64.StdEncoding.EncodeToString`. -/
def EncodeToString (src : List Nat) : String := String.mk (Encode src)

/-- Table lookup `enc.decodeMap[c]`; `none` stands for the entry `0xff`. -/
def decodeMap (c : Char) : Option Nat :=
  let i := encodeStd.data.indexOf c
  if i < 64 then some i else none

/-- Quanta of the standard padded decoder: four characters give three bytes;
a last quantum `xx==` gives one byte and `xxx=` two; nothing may follow
padding, and a short last quantum is an error. -/
def decodeQuanta : List Char → Option (List Nat)
  | [] => some []
  | c0 :: c1 :: c2 :: c3 :: rest =>
      if c2 = padChar then
        if c3 = padChar ∧ rest = [] then
          match decodeMap c0, decodeMap c1 with
          | some s0, some s1 =>
              let val := s0 <<< 18 ||| s1 <<< 12
              some [val >>> 16 % 256]
          | _, _ => none
        else none
      else if c3 = padChar then
        if rest = [] then
          match decodeMap c0, decodeMap c1, decodeMap c2 with
          | some s0, some s1, some s2 =>
              let val := s0 <<< 18 ||| s1 <<< 12 ||| s2 <<< 6
              some [val >>> 16 % 256, val >>> 8 % 256]
          | _, _, _ => none
        else none
      else
        match decodeMap c0, decodeMap c1, decodeMap c2, decodeMap c3, decodeQuanta rest with
        | some s0, some s1, some s2, some s3, some tail =>
            let val := s0 <<< 18 ||| s1 <<< 12 ||| s2 <<< 6 ||| s3
            some ([val >>> 16 % 256, val >>> 8 % 256, val % 256] ++ tail)
        | _, _, _, _, _ => none
  | _ => none

/-- The standard padded base64 decoder (Go `base64.StdEncoding.DecodeString`):
carriage returns and line feeds are skipped, then the quanta are decoded;
`none` is a `CorruptInputError`. -/
def DecodeString (s : String) : Option (List Nat) :=
  decodeQuanta (s.data.filter fun c => c ≠ '\n' ∧ c ≠ '\r')

/-- What is left of a text after its first occurrence of `marker`; `none` when
the marker does not occur. -/
def afterFirst (marker : List Char) : List Char → Option (List Char)
  | [] => if marker = [] then some [] else none
  | c :: cs =>
      if marker.isPrefixOf (c :: cs) then some ((c :: cs).drop marker.length)
      else afterFirst marker cs

/-! ## `02_ollama_multimodal/main.go` -/

/-- The part of the operating system `getImage` talks to.  `notExist p` is
`os.IsNotExist(err)` for the error of `os.Stat(p)`; `readFile p` is the result
of `os.ReadFile(p)`, `none` standing for an error. -/
structure FileSystem where
  notExist : String → Bool
  readFile : String → Option (List Nat)

/-- Lines 19-21 of `getImage`: the first command-line argument, when there is
one, replaces the path passed in. -/
def argPath (osArgs : List String) (imagePath : String) : String :=
  if osArgs.length > 1 then osArgs.getD 1 imagePath else imagePath

/-- Go `getContentTypeFromExtension`. -/
def getContentTypeFromExtension (unicodeToLower : Char → Char) (filename : String) : String :=
  let ext := ToLower unicodeToLower (Ext filename)
  if ext = ".jpg" ∨ ext = ".jpeg" then "image/jpeg"
  else if ext = ".png" then "image/png"
  else if ext = ".gif" then "image/gif"
  else if ext = ".webp" then "image/webp"
  else if ext = ".bmp" then "image/bmp"
  else if ext = ".svg" then "image/svg+xml"
  else "image/png"

instance instDecidableEqExcept {ε α : Type} [DecidableEq ε] [DecidableEq α] :
    DecidableEq (Except ε α)
  | .ok a, .ok b => decidable_of_iff (a = b) (by simp)
  | .error a, .error b => decidable_of_iff (a = b) (by simp)
  | .ok _, .error _ => isFalse (by simp)
  | .error _, .ok _ => isFalse (by simp)

/-- Go `getImage`: the content type and the data URI, or the error message. -/
def getImage (unicodeToLower : Char → Char) (osArgs : List String) (fs : FileSystem)
    (imagePath : String) : Except String (String × String) :=
  let imagePath := argPath osArgs imagePath
  if fs.notExist imagePath then .error ("image file not found: " ++ imagePath)
  else
    match fs.readFile imagePath with
    | none => .error ("failed to read image file: " ++ imagePath)
    | some imageData =>
        let contentType := DetectContentType imageData
        let contentType :=
          if contentType = "application/octet-stream" then
            getContentTypeFromExtension unicodeToLower imagePath
          else contentType
        let base64Image := EncodeToString imageData
        let dataURI := "data:" ++ contentType ++ ";base64," ++ base64Image
        .ok (contentType, dataURI)

/-- A file system holding one readable file. -/
def oneFile (path : String) (data : List Nat) : FileSystem where
  notExist p := p != path
  readFile p := if p = path then some data else none

/-- Go `ai.PartKind` of genkit. -/
inductive PartKind where
  | text | media | data | toolRequest | toolResponse | custom | reasoning
  deriving DecidableEq, Repr

/-- Go `ai.Part`, with the fields the program reads or sets. -/
structure Part where
  Kind : PartKind
  ContentType : String
  Text : String
  deriving DecidableEq, Repr

/-- Go `(*ai.Part).IsText`. -/
def Part.IsText (p : Part) : Bool := p.Kind == PartKind.text

/-- Go `ai.NewTextPart`. -/
def NewTextPart (text : String) : Part :=
  { Kind := .text, ContentType := "plain/text", Text := text }

/-- Go `ai.NewMediaPart`. -/
def NewMediaPart (mimeType contents : String) : Part :=
  { Kind := .media, ContentType := mimeType, Text := contents }

/-- Go `ai.Role`. -/
inductive Role where
  | user | model | system | tool
  deriving DecidableEq, Repr

/-- Go `ai.Message`. -/
structure Message where
  Role : Role
  Content : List Part
  deriving DecidableEq, Repr

/-- Go `ai.Document`. -/
structure Document where
  Content : List Part
  deriving DecidableEq, Repr

/-- Go `ai.GenerationCommonConfig`, with the three options `main` sets. -/
structure GenerationCommonConfig where
  Temperature : Rat
  TopK : Nat
  TopP : Rat
  deriving DecidableEq

/-- Go `ai.ModelRequest`. -/
structure ModelRequest where
  Docs : List Document
  Messages : List Message
  Config : GenerationCommonConfig
  deriving DecidableEq

/-- Go `ai.ModelResponse`: the message of the reply. -/
structure ModelResponse where
  Message : Message
  deriving DecidableEq, Repr

/-- What a run of the program leaves behind: the text written to standard
output and the exit status (0 when `main` returns, 1 after `log.Fatal`). -/
structure Outcome where
  stdout : String
  exitCode : Nat
  deriving DecidableEq, Repr

/-- Lines 132-136 of `main`: the loop over the parts of the reply.  A text
part is written with `fmt.Println`, which ends the line; any other part is
passed over. -/
def printParts : List Part → String
  | [] => ""
  | part :: rest =>
      (if part.IsText then part.Text ++ "\n" else "") ++ printParts rest

/-- Lines 130-136 of `main`: the heading and the loop. -/
def printResponse (response : ModelResponse) : String :=
  "\nModel Response:\n" ++ printParts response.Message.Content

/-- The request `main` builds from the content type and the data URI. -/
def buildRequest (contentType dataURI : String) : ModelRequest :=
  { Docs := [{ Content := [NewTextPart "Glasses are often a sign of evil people"] }],
    Messages :=
      [{ Role := .user,
         Content :=
           [NewTextPart "What do you think about this animated character?",
            NewMediaPart contentType dataURI] }],
    Config := { Temperature := 2, TopK := 50, TopP := 1 / 2 } }

/-- Go `main` of `02_ollama_multimodal`.  `initErr` is the error of
`genkit.Init`, `generate` is `model.Generate` of the model that was defined. -/
def main (unicodeToLower : Char → Char) (osArgs : List String) (fs : FileSystem)
    (initErr : Option String) (generate : ModelRequest → Except String ModelResponse) :
    Outcome :=
  match initErr with
  | some _ => { stdout := "", exitCode := 1 }
  | none =>
      match getImage unicodeToLower osArgs fs "wally.jpeg" with
      | .error _ => { stdout := "", exitCode := 1 }
      | .ok (contentType, dataURI) =>
          let request := buildRequest contentType dataURI
          let out := "Sending request to llava model...\n"
          match generate request with
          | .error _ => { stdout := out, exitCode := 1 }
          | .ok response => { stdout := out ++ printResponse response, exitCode := 0 }

/-! ## `01_genkit_base/main.go` -/

namespace Base

/-- The request the flow sends: `ai.NewGenerateRequest` applied to the
configuration and one user text message. -/
structure GenerateRequest where
  Temperature : Rat
  UserText : String
  deriving DecidableEq

/-- The error a run of the handler returns: the one made with `errors.New`
when the model is not found, or the error of the backend, unchanged. -/
inductive FlowError (E : Type) where
  | modelNotFound (msg : String)
  | backend (err : E)
  deriving DecidableEq

/-- The behaviour of a backend: a request and the state of the backend give a
response or an error, and the next state. -/
abbrev Model (R E σ : Type) := GenerateRequest → σ → Except E R × σ

/-- The world a run of the handler acts on: the state of the backend and the
requests the backend has received, in order. -/
structure World (σ : Type) where
  state : σ
  calls : List GenerateRequest

/-- Go `m.Generate(ctx, req, nil)`: one call of the backend.  The call is
recorded in the world. -/
def Model.Generate {R E σ : Type} (m : Model R E σ) (req : GenerateRequest) (w : World σ) :
    Except E R × World σ :=
  ((m req w.state).1, { state := (m req w.state).2, calls := w.calls ++ [req] })

/-- The request built at lines 36-38 from the input of the flow. -/
def newRequest (input : String) : GenerateRequest :=
  { Temperature := 1, UserText := "Write a small terror-based paragraph themed on " ++ input }

/-- The handler registered as `shortTerrorFlow`.  `m` is the result of
`googleai.Model("gemini-1.5-flash")` (`none` for `nil`) and `text` is
`resp.Text()`.  The result is the pair the handler returns, the string and the
error (`none` for `nil`), and the world it leaves. -/
def shortTerrorFlow {R E σ : Type} (m : Option (Model R E σ)) (text : R → String)
    (input : String) (w : World σ) : (String × Option (FlowError E)) × World σ :=
  match m with
  | none => (("", some (.modelNotFound "shortTerrorFlow: failed to find model")), w)
  | some model =>
      match model.Generate (newRequest input) w with
      | (.error err, w') => (("", some (.backend err)), w')
      | (.ok resp, w') => ((text resp, none), w')

end Base

/-! ## Vocabulary of the specification -/

/-- The image formats the specification calls supported. -/
inductive ImageFormat where
  | jpeg | png | gif | webp | bmp
  deriving DecidableEq, Repr

/-- The MIME type of a supported format. -/
def ImageFormat.mime : ImageFormat → String
  | .jpeg => "image/jpeg"
  | .png => "image/png"
  | .gif => "image/gif"
  | .webp => "image/webp"
  | .bmp => "image/bmp"

/-- The magic numbers of a supported format; `none` stands for any byte.
JPEG is `FF D8 FF`, PNG is `89 'PNG' 0D 0A 1A 0A`, GIF is `GIF87a` or `GIF89a`,
WEBP is `RIFF`, four bytes of length, `WEBPVP`, and BMP is `BM`. -/
def ImageFormat.signatures : ImageFormat → List (List (Option Nat))
  | .jpeg => [[some 0xFF, some 0xD8, some 0xFF]]
  | .png => [[some 0x89, some 0x50, some 0x4E, some 0x47, some 0x0D, some 0x0A, some 0x1A,
      some 0x0A]]
  | .gif => [[some 0x47, some 0x49, some 0x46, some 0x38, some 0x37, some 0x61],
      [some 0x47, some 0x49, some 0x46, some 0x38, some 0x39, some 0x61]]
  | .webp => [[some 0x52, some 0x49, some 0x46, some 0x46, none, none, none, none,
      some 0x57, some 0x45, some 0x42, some 0x50, some 0x56, some 0x50]]
  | .bmp => [[some 0x42, some 0x4D]]

/-- The buffer begins with the pattern. -/
def beginsWith : List (Option Nat) → List Nat → Bool
  | [], _ => true
  | _ :: _, [] => false
  | some b :: pat, d :: data => d == b && beginsWith pat data
  | none :: pat, _ :: data => beginsWith pat data

/-- The buffer begins with a magic number of the format. -/
def hasSignature (f : ImageFormat) (data : List Nat) : Bool :=
  f.signatures.any fun pat => beginsWith pat data

/-- The buffer carries none of the known image signatures. -/
def noImageSignature (data : List Nat) : Bool :=
  [ImageFormat.jpeg, .png, .gif, .webp, .bmp].all fun f => !hasSignature f data

/-- The fixed table of the specification, from the extension (with its dot)
to the MIME type. -/
def extensionTable : List (String × String) :=
  [(".jpg", "image/jpeg"), (".jpeg", "image/jpeg"), (".png", "image/png"),
   (".gif", "image/gif"), (".webp", "image/webp"), (".bmp", "image/bmp"),
   (".svg", "image/svg+xml")]

/-- The characters of padded standard base64: `A-Z`, `a-z`, `0-9`, `+`, `/`
and `=`. -/
def isBase64Char (c : Char) : Bool :=
  (decide (0x41 ≤ c.toNat) && decide (c.toNat ≤ 0x5A)) ||
  (decide (0x61 ≤ c.toNat) && decide (c.toNat ≤ 0x7A)) ||
  (decide (0x30 ≤ c.toNat) && decide (c.toNat ≤ 0x39)) ||
  c == '+' || c == '/' || c == '='

/-- What follows the last occurrence of `c` in `l`; all of `l` when `c` does
not occur. -/
def afterLast (c : Char) (l : List Char) : List Char :=
  (l.reverse.takeWhile fun x => x != c).reverse

/-- The last element of a path: what follows its last separator. -/
def lastElement (path : String) : List Char := afterLast '/' path.data

/-- The extension in the words of the specification: the suffix from the last
dot of the last path element, and the empty string when that element has no
dot. -/
def finalExtension (path : String) : String :=
  if '.' ∈ lastElement path then String.mk ('.' :: afterLast '.' (lastElement path)) else ""

/-- The fixed table applied to an extension, `image/png` being the answer for
an extension that has no entry. -/
def tableType (ext : String) : String :=
  match extensionTable.lookup ext with
  | some ty => ty
  | none => "image/png"

/-- The loop of `filepath.Ext` seen from the end of the path: `r` is the part
still to scan, last character first, and `suffix` is the part scanned. -/
def scanRev : List Char → List Char → List Char
  | [], _ => []
  | c :: r, suffix =>
      if isPathSeparator c then []
      else if c = '.' then c :: suffix
      else scanRev r (c :: suffix)

/-- The content type a signature answers with when it applies. -/
def sniffSig.ct : sniffSig → String
  | .exactSig _ ct => ct
  | .maskedSig _ _ _ ct => ct
  | .htmlSig _ => "text/html; charset=utf-8"
  | .mp4Sig => "video/mp4"
  | .textSig => "text/plain; charset=utf-8"

/-- The text of a response in the words of the specification: the payloads of
its text parts, in order, with nothing between them. -/
def concatText (parts : List Part) : String :=
  String.join ((parts.filter Part.IsText).map Part.Text)

/-- A backend that fails its first call and answers the later ones; its state
is the number of calls it has received. -/
def flakyBackend : Base.Model String String Nat :=
  fun _ n => (if n = 0 then .error "quota exceeded" else .ok "The pumpkins were watching.", n + 1)

/-- The other case of an ASCII letter; any other character is left as it is. -/
def swapCaseASCII (c : Char) : Char :=
  if 0x41 ≤ c.toNat ∧ c.toNat ≤ 0x5A then Char.ofNat (c.toNat + 0x20)
  else if 0x61 ≤ c.toNat ∧ c.toNat ≤ 0x7A then Char.ofNat (c.toNat - 0x20)
  else c

/-- The character `b` is the character `a`, or `a` in its other ASCII case. -/
def caseTwin (a b : Char) : Prop := b = a ∨ b = swapCaseASCII a

instance instDecidableCaseTwin (a b : Char) : Decidable (caseTwin a b) := by
  unfold caseTwin
  infer_instance

/-- The name `g` is the name `f` with the case of some of its ASCII letters
changed. -/
def ASCIICaseChange (f g : String) : Prop := List.Forall₂ caseTwin f.data g.data

instance instDecidableASCIICaseChange (f g : String) : Decidable (ASCIICaseChange f g) := by
  unfold ASCIICaseChange
  infer_instance

/-- Two entries of the Go table `unicode.CaseRanges`, as triples of a letter,
its upper case and its lower case: U+017F, the long s, has the upper case `S`
and U+0131, the dotless i, has the upper case `I`; each is its own lower
case. -/
def caseRangesSample : List (Char × Char × Char) :=
  [('ſ', 'S', 'ſ'), ('ı', 'I', 'ı')]

/-! ## Content sniffing: lemmas -/

theorem firstMatch_ne_empty (sigs : List sniffSig) (data : List Nat) (n : Nat) :
    firstMatch sigs data n ≠ "" := by
  induction sigs with
  | nil => simp [firstMatch]
  | cons sig sigs ih =>
      simp only [firstMatch]
      split
      · assumption
      · exact ih

theorem DetectContentType_ne_empty (data : List Nat) : DetectContentType data ≠ "" :=
  firstMatch_ne_empty _ _ _

theorem beginsWith_some_cons (b : Nat) (pat : List (Option Nat)) (data : List Nat) :
    beginsWith (some b :: pat) data = true ↔
      ∃ rest, data = b :: rest ∧ beginsWith pat rest = true := by
  cases data with
  | nil => simp [beginsWith]
  | cons d ds =>
      simp only [beginsWith, Bool.and_eq_true, beq_iff_eq, List.cons.injEq]
      constructor
      · rintro ⟨rfl, h⟩
        exact ⟨ds, ⟨rfl, rfl⟩, h⟩
      · rintro ⟨_, ⟨rfl, rfl⟩, h⟩
        exact ⟨rfl, h⟩

theorem beginsWith_none_cons (pat : List (Option Nat)) (data : List Nat) :
    beginsWith (none :: pat) data = true ↔
      ∃ d rest, data = d :: rest ∧ beginsWith pat rest = true := by
  cases data with
  | nil => simp [beginsWith]
  | cons d ds =>
      simp only [beginsWith, List.cons.injEq]
      constructor
      · intro h
        exact ⟨d, ds, ⟨rfl, rfl⟩, h⟩
      · rintro ⟨_, _, ⟨rfl, rfl⟩, h⟩
        exact h

theorem beginsWith_take (pat : List (Option Nat)) :
    ∀ (data : List Nat) (n : Nat), pat.length ≤ n → beginsWith pat data = true →
      beginsWith pat (data.take n) = true := by
  induction pat with
  | nil => intro data n _ _; simp [beginsWith]
  | cons p pat ih =>
      intro data n hn h
      obtain ⟨k, rfl⟩ : ∃ k, n = k + 1 := ⟨n - 1, by simp at hn; omega⟩
      have hk : pat.length ≤ k := by simpa using hn
      cases p with
      | none =>
          obtain ⟨d, rest, rfl, hr⟩ := (beginsWith_none_cons pat data).1 h
          exact (beginsWith_none_cons pat _).2 ⟨d, rest.take k, by simp, ih rest k hk hr⟩
      | some b =>
          obtain ⟨rest, rfl, hr⟩ := (beginsWith_some_cons b pat data).1 h
          exact (beginsWith_some_cons b pat _).2 ⟨rest.take k, by simp, ih rest k hk hr⟩

theorem beginsWith_sniffed (pat : List (Option Nat)) (data : List Nat)
    (hlen : pat.length ≤ sniffLen) (h : beginsWith pat data = true) :
    beginsWith pat (if data.length > sniffLen then data.take sniffLen else data) = true := by
  split
  · exact beginsWith_take pat data sniffLen hlen h
  · exact h

/-- The table applied to a buffer that begins with a magic number of `f`. -/
theorem firstMatch_of_signature (f : ImageFormat) (data : List Nat)
    (h : hasSignature f data = true) :
    firstMatch sniffSignatures data (data.takeWhile isWS).length = f.mime := by
  cases f <;>
    simp only [hasSignature, ImageFormat.signatures, List.any_cons, List.any_nil, Bool.or_false,
      Bool.or_eq_true, beginsWith_some_cons, beginsWith_none_cons] at h
  · obtain ⟨_, rfl, _, rfl, _, rfl, -⟩ := h
    simp +decide [firstMatch, sniffSignatures, sniffSig.match, bytes, htmlLoop, maskedLoop,
      nul34, isWS, ImageFormat.mime]
  · obtain ⟨_, rfl, _, rfl, _, rfl, _, rfl, _, rfl, _, rfl, _, rfl, _, rfl, -⟩ := h
    simp +decide [firstMatch, sniffSignatures, sniffSig.match, bytes, htmlLoop, maskedLoop,
      nul34, isWS, ImageFormat.mime]
  · rcases h with h | h
    · obtain ⟨_, rfl, _, rfl, _, rfl, _, rfl, _, rfl, _, rfl, -⟩ := h
      simp +decide [firstMatch, sniffSignatures, sniffSig.match, bytes, htmlLoop, maskedLoop,
        nul34, isWS, ImageFormat.mime]
    · obtain ⟨_, rfl, _, rfl, _, rfl, _, rfl, _, rfl, _, rfl, -⟩ := h
      simp +decide [firstMatch, sniffSignatures, sniffSig.match, bytes, htmlLoop, maskedLoop,
        nul34, isWS, ImageFormat.mime]
  · obtain ⟨_, rfl, _, rfl, _, rfl, _, rfl, _, _, rfl, _, _, rfl, _, _, rfl, _, _, rfl,
      _, rfl, _, rfl, _, rfl, _, rfl, _, rfl, _, rfl, -⟩ := h
    simp +decide [firstMatch, sniffSignatures, sniffSig.match, bytes, htmlLoop, maskedLoop,
      nul34, isWS, ImageFormat.mime]
  · obtain ⟨_, rfl, _, rfl, -⟩ := h
    simp +decide [firstMatch, sniffSignatures, sniffSig.match, bytes, htmlLoop, maskedLoop,
      nul34, isWS, ImageFormat.mime]

theorem hasSignature_sniffed (f : ImageFormat) (data : List Nat)
    (h : hasSignature f data = true) :
    hasSignature f (if data.length > sniffLen then data.take sniffLen else data) = true := by
  simp only [hasSignature, List.any_eq_true] at h ⊢
  obtain ⟨pat, hpat, hb⟩ := h
  refine ⟨pat, hpat, beginsWith_sniffed pat data ?_ hb⟩
  revert pat
  cases f <;> simp +decide [ImageFormat.signatures, sniffLen]

theorem DetectContentType_of_signature (f : ImageFormat) (data : List Nat)
    (h : hasSignature f data = true) : DetectContentType data = f.mime :=
  firstMatch_of_signature f _ (hasSignature_sniffed f data h)

/-! ## `getImage`: lemmas -/

/-- The content type `getImage` settles on (lines 34-40). -/
theorem getImage_ok (unicodeToLower : Char → Char) (osArgs : List String) (fs : FileSystem)
    (imagePath : String) (data : List Nat)
    (hstat : fs.notExist (argPath osArgs imagePath) = false)
    (hread : fs.readFile (argPath osArgs imagePath) = some data) :
    getImage unicodeToLower osArgs fs imagePath =
      .ok (if DetectContentType data = "application/octet-stream" then
              getContentTypeFromExtension unicodeToLower (argPath osArgs imagePath)
            else DetectContentType data,
           "data:" ++ (if DetectContentType data = "application/octet-stream" then
              getContentTypeFromExtension unicodeToLower (argPath osArgs imagePath)
            else DetectContentType data) ++ ";base64," ++ EncodeToString data) := by
  simp [getImage, hstat, hread]

/-! ## Base64: lemmas -/

set_option maxRecDepth 100000 in
theorem encodeByte_facts :
    ∀ i, i < 64 →
      (isBase64Char (encodeByte i) = true ∧ encodeByte i ≠ padChar ∧
        decodeMap (encodeByte i) = some i) := by
  decide

theorem and_0x3F (x : Nat) : x &&& 0x3F = x % 64 :=
  Nat.and_pow_two_sub_one_eq_mod x 6

theorem and_0x3F_lt (x : Nat) : x &&& 0x3F < 64 := by
  rw [and_0x3F]; omega

theorem isBase64Char_encodeByte (x : Nat) : isBase64Char (encodeByte (x &&& 0x3F)) = true :=
  (encodeByte_facts _ (and_0x3F_lt x)).1

theorem Encode_length : ∀ src : List Nat, (Encode src).length = 4 * ((src.length + 2) / 3)
  | [] => by simp [Encode]
  | [_] => by simp [Encode]
  | [_, _] => by simp [Encode]
  | _ :: _ :: _ :: rest => by
      have ih := Encode_length rest
      simp only [Encode, List.length_append, List.length_cons, List.length_nil, ih]
      omega

theorem Encode_alphabet : ∀ src : List Nat, ∀ c ∈ Encode src, isBase64Char c = true
  | [] => by simp [Encode]
  | [_] => by
      intro c hc
      simp only [Encode, List.mem_cons, List.mem_singleton, List.not_mem_nil, or_false] at hc
      rcases hc with rfl | rfl | rfl | rfl
      · exact isBase64Char_encodeByte _
      · exact isBase64Char_encodeByte _
      · decide
      · decide
  | [_, _] => by
      intro c hc
      simp only [Encode, List.mem_cons, List.mem_singleton, List.not_mem_nil, or_false] at hc
      rcases hc with rfl | rfl | rfl | rfl
      · exact isBase64Char_encodeByte _
      · exact isBase64Char_encodeByte _
      · exact isBase64Char_encodeByte _
      · decide
  | _ :: _ :: _ :: rest => by
      intro c hc
      simp only [Encode, List.mem_append, List.mem_cons, List.mem_singleton, List.not_mem_nil,
        or_false] at hc
      rcases hc with (rfl | rfl | rfl | rfl) | hc
      · exact isBase64Char_encodeByte _
      · exact isBase64Char_encodeByte _
      · exact isBase64Char_encodeByte _
      · exact isBase64Char_encodeByte _
      · exact Encode_alphabet rest c hc

theorem mul_pow_or (a b k : Nat) (h : b < 2 ^ k) : a * 2 ^ k ||| b = a * 2 ^ k + b := by
  rw [Nat.mul_comm, Nat.mul_add_lt_is_or h]

theorem shl_or2 (a b : Nat) (hb : b < 256) :
    a <<< 16 ||| b <<< 8 = a * 65536 + b * 256 := by
  have h1 := mul_pow_or a (b * 2 ^ 8) 16 (by omega)
  simp only [Nat.shiftLeft_eq]
  rw [h1]
  norm_num

theorem shl_or3 (a b c : Nat) (hb : b < 256) (hc : c < 256) :
    a <<< 16 ||| b <<< 8 ||| c = a * 65536 + b * 256 + c := by
  have h2 := mul_pow_or (a * 2 ^ 8 + b) c 8 (by omega)
  rw [shl_or2 a b hb, show a * 65536 + b * 256 = (a * 2 ^ 8 + b) * 2 ^ 8 by ring, h2]

theorem sextets2 (s0 s1 : Nat) (h1 : s1 < 64) :
    s0 <<< 18 ||| s1 <<< 12 = s0 * 262144 + s1 * 4096 := by
  have e1 := mul_pow_or s0 (s1 * 2 ^ 12) 18 (by omega)
  simp only [Nat.shiftLeft_eq]
  rw [e1]
  norm_num

theorem sextets3 (s0 s1 s2 : Nat) (h1 : s1 < 64) (h2 : s2 < 64) :
    s0 <<< 18 ||| s1 <<< 12 ||| s2 <<< 6 = s0 * 262144 + s1 * 4096 + s2 * 64 := by
  have e2 := mul_pow_or (s0 * 2 ^ 6 + s1) (s2 * 2 ^ 6) 12 (by omega)
  rw [sextets2 s0 s1 h1, Nat.shiftLeft_eq,
    show s0 * 262144 + s1 * 4096 = (s0 * 2 ^ 6 + s1) * 2 ^ 12 by ring, e2]
  ring

theorem sextets4 (s0 s1 s2 s3 : Nat) (h1 : s1 < 64) (h2 : s2 < 64) (h3 : s3 < 64) :
    s0 <<< 18 ||| s1 <<< 12 ||| s2 <<< 6 ||| s3 = s0 * 262144 + s1 * 4096 + s2 * 64 + s3 := by
  have e3 := mul_pow_or (s0 * 2 ^ 12 + s1 * 2 ^ 6 + s2) s3 6 (by omega)
  rw [sextets3 s0 s1 s2 h1 h2,
    show s0 * 262144 + s1 * 4096 + s2 * 64 = (s0 * 2 ^ 12 + s1 * 2 ^ 6 + s2) * 2 ^ 6 by ring, e3]

theorem decodeMap_encodeByte (x : Nat) : decodeMap (encodeByte (x % 64)) = some (x % 64) :=
  (encodeByte_facts _ (Nat.mod_lt _ (by decide))).2.2

theorem encodeByte_ne_padChar (x : Nat) : encodeByte (x % 64) ≠ padChar :=
  (encodeByte_facts _ (Nat.mod_lt _ (by decide))).2.1

/-- Decoding undoes encoding, on every buffer of bytes. -/
theorem decodeQuanta_Encode : ∀ data : List Nat, IsByteBuffer data →
    decodeQuanta (Encode data) = some data
  | [], _ => by simp [Encode, decodeQuanta]
  | [a], h => by
      have ha : a < 256 := h a (by simp)
      simp only [Encode, and_0x3F, decodeQuanta, decodeMap_encodeByte, true_and, if_true]
      rw [sextets2 _ _ (Nat.mod_lt _ (by decide))]
      simp only [Nat.shiftRight_eq_div_pow, Nat.shiftLeft_eq]
      simp only [Option.some.injEq, List.cons.injEq, and_true]
      omega
  | [a, b], h => by
      have ha : a < 256 := h a (by simp)
      have hb : b < 256 := h b (by simp)
      simp only [Encode, and_0x3F, decodeQuanta, decodeMap_encodeByte, true_and, if_true,
        encodeByte_ne_padChar, if_false]
      rw [sextets3 _ _ _ (Nat.mod_lt _ (by decide)) (Nat.mod_lt _ (by decide)), shl_or2 a b hb]
      simp only [Nat.shiftRight_eq_div_pow]
      simp only [Option.some.injEq, List.cons.injEq, and_true]
      omega
  | a :: b :: c :: rest, h => by
      have ha : a < 256 := h a (by simp)
      have hb : b < 256 := h b (by simp)
      have hc : c < 256 := h c (by simp)
      have ih := decodeQuanta_Encode rest (fun x hx => h x (by simp [hx]))
      simp only [Encode, and_0x3F, List.cons_append, List.nil_append, decodeQuanta,
        decodeMap_encodeByte, encodeByte_ne_padChar, if_false, List.append_eq, ih]
      rw [sextets4 _ _ _ _ (Nat.mod_lt _ (by decide)) (Nat.mod_lt _ (by decide))
        (Nat.mod_lt _ (by decide)), shl_or3 a b c hb hc]
      simp only [Nat.shiftRight_eq_div_pow]
      simp only [Option.some.injEq, List.cons_append, List.nil_append, List.cons.injEq, and_true]
      omega

theorem isBase64Char_not_newline (c : Char) (h : isBase64Char c = true) :
    c ≠ '\n' ∧ c ≠ '\r' := by
  constructor <;> rintro rfl <;> revert h <;> decide

/-- The decoder undoes the encoder. -/
theorem DecodeString_EncodeToString (data : List Nat) (h : IsByteBuffer data) :
    DecodeString (EncodeToString data) = some data := by
  have hf : (Encode data).filter (fun c => decide (c ≠ '\n' ∧ c ≠ '\r')) = Encode data := by
    rw [List.filter_eq_self]
    intro c hc
    exact decide_eq_true (isBase64Char_not_newline c (Encode_alphabet data c hc))
  simp only [DecodeString, EncodeToString, hf]
  exact decodeQuanta_Encode data h

/-! ## The marker of the data URI: lemmas -/

theorem sniffSig.match_eq (s : sniffSig) (data : List Nat) (n : Nat) :
    s.match data n = "" ∨ s.match data n = s.ct := by
  cases s <;> simp only [sniffSig.match, sniffSig.ct] <;> split_ifs <;> simp

theorem firstMatch_mem (sigs : List sniffSig) (data : List Nat) (n : Nat) :
    firstMatch sigs data n ∈ "application/octet-stream" :: sigs.map sniffSig.ct := by
  induction sigs with
  | nil => simp [firstMatch]
  | cons sig sigs ih =>
      simp only [firstMatch]
      split
      · next hne =>
          rcases sniffSig.match_eq sig data n with h | h
          · exact absurd h hne
          · rw [h]; simp
      · have := ih
        simp only [List.mem_cons, List.map_cons] at this ⊢
        tauto

theorem DetectContentType_no_comma (data : List Nat) :
    ',' ∉ (DetectContentType data).data := by
  have hall : ∀ t ∈ "application/octet-stream" :: sniffSignatures.map sniffSig.ct,
      ',' ∉ t.data := by decide
  exact hall _ (firstMatch_mem _ _ _)

theorem getContentTypeFromExtension_no_comma (unicodeToLower : Char → Char)
    (filename : String) : ',' ∉ (getContentTypeFromExtension unicodeToLower filename).data := by
  unfold getContentTypeFromExtension
  simp only []
  split_ifs <;> decide

theorem append_cons_unique {a : Char} :
    ∀ {x y s t : List Char}, a ∉ x → a ∉ y → x ++ a :: s = y ++ a :: t → x = y
  | [], [], _, _, _, _, _ => rfl
  | [], b :: y, _, _, _, hy, h => by
      simp only [List.nil_append, List.cons_append, List.cons.injEq] at h
      exact absurd (by simp [h.1]) hy
  | c :: x, [], _, _, hx, _, h => by
      simp only [List.nil_append, List.cons_append, List.cons.injEq] at h
      exact absurd (by simp [h.1]) hx
  | c :: x, b :: y, _, _, hx, hy, h => by
      simp only [List.cons_append, List.cons.injEq] at h
      have hx' : a ∉ x := fun hm => hx (List.mem_cons_of_mem _ hm)
      have hy' : a ∉ y := fun hm => hy (List.mem_cons_of_mem _ hm)
      rw [h.1, append_cons_unique hx' hy' h.2]

/-- In a text `pre ++ ";base64," ++ payload` whose head `pre` has no comma, the
first marker is the one after `pre`. -/
theorem afterFirst_marker (pre payload : List Char) (h : ',' ∉ pre) :
    afterFirst ";base64,".data (pre ++ ";base64,".data ++ payload) = some payload := by
  induction pre with
  | nil =>
      show afterFirst [';', 'b', 'a', 's', 'e', '6', '4', ',']
        (';' :: 'b' :: 'a' :: 's' :: 'e' :: '6' :: '4' :: ',' :: payload) = some payload
      simp [afterFirst, List.isPrefixOf]
  | cons c pre ih =>
      have hc : ',' ∉ pre := fun hm => h (List.mem_cons_of_mem _ hm)
      have hnot : List.isPrefixOf ";base64,".data (c :: (pre ++ ";base64,".data ++ payload))
          = false := by
        rw [Bool.eq_false_iff]
        intro hp
        rw [List.isPrefixOf_iff_prefix] at hp
        obtain ⟨t, ht⟩ := hp
        have hlist : [';', 'b', 'a', 's', 'e', '6', '4'] ++ ',' :: t
            = (c :: pre ++ [';', 'b', 'a', 's', 'e', '6', '4']) ++ ',' :: payload := by
          have e : ";base64,".data = [';', 'b', 'a', 's', 'e', '6', '4', ','] := rfl
          rw [e] at ht
          simpa using ht
        have hm1 : ',' ∉ [';', 'b', 'a', 's', 'e', '6', '4'] := by decide
        have hm2 : ',' ∉ c :: pre ++ [';', 'b', 'a', 's', 'e', '6', '4'] := by
          intro hm
          rcases List.mem_append.1 hm with hm | hm
          · exact h hm
          · exact hm1 hm
        have := congrArg List.length (append_cons_unique hm1 hm2 hlist)
        simp at this
      show afterFirst ";base64,".data (c :: (pre ++ ";base64,".data ++ payload)) = some payload
      rw [afterFirst, if_neg (by rw [hnot]; exact Bool.false_ne_true), ih hc]

/-! ## The claims about `getImage` -/

/-- C1. Signature takes precedence over extension: when the bytes `getImage`
reads begin with a JPEG, PNG, GIF, WEBP or BMP magic number, the content type
it returns is the MIME type of that format, whatever the path. -/
theorem getImage_signature_precedence (unicodeToLower : Char → Char) (osArgs : List String)
    (fs : FileSystem) (imagePath : String) (data : List Nat) (f : ImageFormat)
    (hstat : fs.notExist (argPath osArgs imagePath) = false)
    (hread : fs.readFile (argPath osArgs imagePath) = some data)
    (hsig : hasSignature f data = true) :
    ∃ dataURI, getImage unicodeToLower osArgs fs imagePath = .ok (f.mime, dataURI) := by
  rw [getImage_ok unicodeToLower osArgs fs imagePath data hstat hread,
    DetectContentType_of_signature f data hsig]
  have hne : f.mime ≠ "application/octet-stream" := by cases f <;> decide
  rw [if_neg hne]
  exact ⟨_, rfl⟩

/-- JPEG-signed bytes read from a path ending in `.png` and from one ending in
`.jpeg` both give `image/jpeg`. -/
theorem getImage_signature_precedence_witness :
    (∃ dataURI, getImage lowerASCII [] (oneFile "wally.png" [0xFF, 0xD8, 0xFF, 0xE0]) "wally.png"
        = .ok ("image/jpeg", dataURI)) ∧
    (∃ dataURI, getImage lowerASCII ["prog", "wally.jpeg"]
        (oneFile "wally.jpeg" [0xFF, 0xD8, 0xFF, 0xE0]) "other.gif"
        = .ok ("image/jpeg", dataURI)) :=
  ⟨getImage_signature_precedence lowerASCII [] (oneFile "wally.png" [0xFF, 0xD8, 0xFF, 0xE0])
      "wally.png" [0xFF, 0xD8, 0xFF, 0xE0] .jpeg (by decide) (by decide) (by decide),
   getImage_signature_precedence lowerASCII ["prog", "wally.jpeg"]
      (oneFile "wally.jpeg" [0xFF, 0xD8, 0xFF, 0xE0]) "other.gif" [0xFF, 0xD8, 0xFF, 0xE0] .jpeg
      (by decide) (by decide) (by decide)⟩

/-- C2, as stated, fails: the bytes of `<svg></svg>` carry no image signature
and the path ends in `.svg`, yet the content type is the sniffed
`text/plain; charset=utf-8`, not `image/svg+xml`; likewise `hello` read from
`notes.jpg` and an empty file read from `empty.bin`. -/
theorem getImage_extension_fallback_counterexample :
    (noImageSignature (bytes "<svg></svg>") = true ∧ Ext "logo.svg" = ".svg" ∧
      getImage lowerASCII [] (oneFile "logo.svg" (bytes "<svg></svg>")) "logo.svg" =
        .ok ("text/plain; charset=utf-8",
          "data:text/plain; charset=utf-8;base64,PHN2Zz48L3N2Zz4=")) ∧
    (noImageSignature (bytes "hello") = true ∧ Ext "notes.jpg" = ".jpg" ∧
      getImage lowerASCII [] (oneFile "notes.jpg" (bytes "hello")) "notes.jpg" =
        .ok ("text/plain; charset=utf-8", "data:text/plain; charset=utf-8;base64,aGVsbG8=")) ∧
    (noImageSignature [] = true ∧ Ext "empty.bin" = ".bin" ∧
      getImage lowerASCII [] (oneFile "empty.bin" []) "empty.bin" =
        .ok ("text/plain; charset=utf-8", "data:text/plain; charset=utf-8;base64,")) := by
  decide

/-- C2, amended. Extension fallback: when the sniffer leaves the bytes as
`application/octet-stream`, the content type `getImage` returns is the entry of
the fixed table for the lower-cased extension of the path, and `image/png`
when the table has no entry for it; when the sniffer gives any other type,
`getImage` returns that type, whatever the extension. -/
theorem getImage_extension_fallback (unicodeToLower : Char → Char) (osArgs : List String)
    (fs : FileSystem) (imagePath : String) (data : List Nat)
    (hstat : fs.notExist (argPath osArgs imagePath) = false)
    (hread : fs.readFile (argPath osArgs imagePath) = some data) :
    (DetectContentType data = "application/octet-stream" →
      (∀ ext ty, (ext, ty) ∈ extensionTable →
        ToLower unicodeToLower (Ext (argPath osArgs imagePath)) = ext →
        ∃ dataURI, getImage unicodeToLower osArgs fs imagePath = .ok (ty, dataURI)) ∧
      ((∀ ty, (ToLower unicodeToLower (Ext (argPath osArgs imagePath)), ty) ∉ extensionTable) →
        ∃ dataURI, getImage unicodeToLower osArgs fs imagePath = .ok ("image/png", dataURI))) ∧
    (DetectContentType data ≠ "application/octet-stream" →
      ∃ dataURI, getImage unicodeToLower osArgs fs imagePath =
        .ok (DetectContentType data, dataURI)) := by
  rw [getImage_ok unicodeToLower osArgs fs imagePath data hstat hread]
  refine ⟨fun hgeneric => ?_, fun hother => ?_⟩
  · rw [if_pos hgeneric]
    constructor
    · intro ext ty hmem hext
      have hct : getContentTypeFromExtension unicodeToLower (argPath osArgs imagePath) = ty := by
        simp only [extensionTable, List.mem_cons, Prod.mk.injEq, List.mem_singleton,
          List.not_mem_nil, or_false] at hmem
        rcases hmem with ⟨rfl, rfl⟩ | ⟨rfl, rfl⟩ | ⟨rfl, rfl⟩ | ⟨rfl, rfl⟩ | ⟨rfl, rfl⟩ |
          ⟨rfl, rfl⟩ | ⟨rfl, rfl⟩ <;>
          simp +decide [getContentTypeFromExtension, hext]
      rw [hct]
      exact ⟨_, rfl⟩
    · intro hnot
      have hct : getContentTypeFromExtension unicodeToLower (argPath osArgs imagePath)
          = "image/png" := by
        have h1 := hnot "image/jpeg"
        have h2 := hnot "image/png"
        have h3 := hnot "image/gif"
        have h4 := hnot "image/webp"
        have h5 := hnot "image/bmp"
        have h6 := hnot "image/svg+xml"
        simp +decide [extensionTable] at h1 h2 h3 h4 h5 h6
        simp [getContentTypeFromExtension, h1, h2, h3, h4, h5, h6]
      rw [hct]
      exact ⟨_, rfl⟩
  · rw [if_neg hother]
    exact ⟨_, rfl⟩

/-- The fallback at three buffers the sniffer leaves as
`application/octet-stream`: one NUL byte read from `photo.JPG` is typed by the
table and read from `photo.raw` is typed `image/png`, and the five bytes
`2E 73 6E 64 00` read from `x.jpg` are typed `image/jpeg`.  The text `hello`
read from `notes.jpg` keeps its sniffed type. -/
theorem getImage_extension_fallback_witness :
    (∃ dataURI, getImage lowerASCII [] (oneFile "photo.JPG" [0]) "photo.JPG"
      = .ok ("image/jpeg", dataURI)) ∧
    (∃ dataURI, getImage lowerASCII [] (oneFile "photo.raw" [0]) "photo.raw"
      = .ok ("image/png", dataURI)) ∧
    (∃ dataURI, getImage lowerASCII [] (oneFile "x.jpg" [0x2E, 0x73, 0x6E, 0x64, 0x00]) "x.jpg"
      = .ok ("image/jpeg", dataURI)) ∧
    (∃ dataURI, getImage lowerASCII [] (oneFile "notes.jpg" (bytes "hello")) "notes.jpg"
      = .ok (DetectContentType (bytes "hello"), dataURI)) ∧
    DetectContentType (bytes "hello") = "text/plain; charset=utf-8" :=
  ⟨((getImage_extension_fallback lowerASCII [] (oneFile "photo.JPG" [0]) "photo.JPG" [0]
      (by decide) (by decide)).1 (by decide)).1 ".jpg" "image/jpeg" (by decide) (by decide),
   ((getImage_extension_fallback lowerASCII [] (oneFile "photo.raw" [0]) "photo.raw" [0]
      (by decide) (by decide)).1 (by decide)).2
      (by
        have e : ToLower lowerASCII (Ext (argPath [] "photo.raw")) = ".raw" := by decide
        intro ty hmem
        rw [e] at hmem
        simp +decide [extensionTable] at hmem),
   ((getImage_extension_fallback lowerASCII [] (oneFile "x.jpg" [0x2E, 0x73, 0x6E, 0x64, 0x00])
      "x.jpg" [0x2E, 0x73, 0x6E, 0x64, 0x00] (by decide) (by decide)).1 (by decide)).1
      ".jpg" "image/jpeg" (by decide) (by decide),
   (getImage_extension_fallback lowerASCII [] (oneFile "notes.jpg" (bytes "hello")) "notes.jpg"
      (bytes "hello") (by decide) (by decide)).2 (by decide),
   by decide⟩

theorem getContentTypeFromExtension_ne_empty (unicodeToLower : Char → Char)
    (filename : String) : getContentTypeFromExtension unicodeToLower filename ≠ "" := by
  unfold getContentTypeFromExtension
  simp only []
  split_ifs <;> decide

/-- C8. Classification is total and never empty: for every byte sequence read
and every path, `getImage` gets past the classification step without error and
the content type it returns is a non-empty string. -/
theorem getImage_contentType_nonempty (unicodeToLower : Char → Char) (osArgs : List String)
    (fs : FileSystem) (imagePath : String) (data : List Nat)
    (hstat : fs.notExist (argPath osArgs imagePath) = false)
    (hread : fs.readFile (argPath osArgs imagePath) = some data) :
    ∃ contentType dataURI,
      getImage unicodeToLower osArgs fs imagePath = .ok (contentType, dataURI) ∧
      contentType ≠ "" := by
  refine ⟨_, _, getImage_ok unicodeToLower osArgs fs imagePath data hstat hread, ?_⟩
  split
  · exact getContentTypeFromExtension_ne_empty _ _
  · exact DetectContentType_ne_empty _

/-- An empty file at a path with no extension still gets a content type. -/
theorem getImage_contentType_nonempty_witness :
    ∃ contentType dataURI,
      getImage lowerASCII [] (oneFile "blob" []) "blob" = .ok (contentType, dataURI) ∧
      contentType ≠ "" :=
  getImage_contentType_nonempty lowerASCII [] (oneFile "blob" []) "blob" []
    (by decide) (by decide)

/-- C4, as stated, fails: reading a zero-length file, `getImage` signals no
error; it returns the sniffed type of the empty buffer and a data URI with an
empty payload. -/
theorem getImage_empty_payload_counterexample :
    getImage lowerASCII [] (oneFile "wally.jpeg" []) "wally.jpeg" =
      .ok ("text/plain; charset=utf-8", "data:text/plain; charset=utf-8;base64,") := by
  decide

/-- C4, amended. Encoding never fails: for every byte sequence read, the empty
one included, `getImage` returns a data URI; for the empty sequence the payload
is the empty string and the result is the one displayed. -/
theorem getImage_encoding_total (unicodeToLower : Char → Char) (osArgs : List String)
    (fs : FileSystem) (imagePath : String) (data : List Nat)
    (hstat : fs.notExist (argPath osArgs imagePath) = false)
    (hread : fs.readFile (argPath osArgs imagePath) = some data) :
    (∃ contentType, getImage unicodeToLower osArgs fs imagePath =
      .ok (contentType, "data:" ++ contentType ++ ";base64," ++ EncodeToString data)) ∧
    (data = [] → getImage unicodeToLower osArgs fs imagePath =
      .ok ("text/plain; charset=utf-8", "data:text/plain; charset=utf-8;base64,")) := by
  refine ⟨⟨_, getImage_ok unicodeToLower osArgs fs imagePath data hstat hread⟩, ?_⟩
  rintro rfl
  have hd : DetectContentType [] = "text/plain; charset=utf-8" := by decide
  have hne : ("text/plain; charset=utf-8" : String) ≠ "application/octet-stream" := by decide
  rw [getImage_ok unicodeToLower osArgs fs imagePath [] hstat hread, hd, if_neg hne]
  rfl

/-- The amended C4 at a zero-length file and at a one-byte file. -/
theorem getImage_encoding_total_witness :
    ((∃ contentType, getImage lowerASCII [] (oneFile "wally.jpeg" []) "wally.jpeg" =
      .ok (contentType, "data:" ++ contentType ++ ";base64," ++ EncodeToString [])) ∧
    (([] : List Nat) = [] → getImage lowerASCII [] (oneFile "wally.jpeg" []) "wally.jpeg" =
      .ok ("text/plain; charset=utf-8", "data:text/plain; charset=utf-8;base64,"))) ∧
    getImage lowerASCII [] (oneFile "wally.jpeg" [0x4D]) "wally.jpeg" =
      .ok ("text/plain; charset=utf-8", "data:text/plain; charset=utf-8;base64,TQ==") :=
  ⟨getImage_encoding_total lowerASCII [] (oneFile "wally.jpeg" []) "wally.jpeg" []
      (by decide) (by decide),
   by decide⟩

/-- C7. Data URI shape: when `getImage` succeeds on the bytes `data`, the data
URI is `data:` + T + `;base64,` + P, where T is the content type returned with
it and P is the encoding of `data`: P has `4 * ceil(n / 3)` characters for `n`
bytes, each of them one of `A-Z a-z 0-9 + / =` (so no line break). -/
theorem getImage_dataURI_shape (unicodeToLower : Char → Char) (osArgs : List String)
    (fs : FileSystem) (imagePath : String) (data : List Nat) (contentType dataURI : String)
    (hread : fs.readFile (argPath osArgs imagePath) = some data)
    (h : getImage unicodeToLower osArgs fs imagePath = .ok (contentType, dataURI)) :
    dataURI = "data:" ++ contentType ++ ";base64," ++ EncodeToString data ∧
    (EncodeToString data).length = 4 * ((data.length + 2) / 3) ∧
    (∀ c ∈ (EncodeToString data).data, isBase64Char c = true) := by
  have hstat : fs.notExist (argPath osArgs imagePath) = false := by
    cases hs : fs.notExist (argPath osArgs imagePath) with
    | false => rfl
    | true => simp [getImage, hs] at h
  rw [getImage_ok unicodeToLower osArgs fs imagePath data hstat hread] at h
  simp only [Except.ok.injEq, Prod.mk.injEq] at h
  obtain ⟨h1, h2⟩ := h
  refine ⟨?_, ?_, ?_⟩
  · rw [← h2, h1]
  · simp [EncodeToString, Encode_length]
  · exact Encode_alphabet data

/-- The shape at the four bytes `FF D8 FF E0` read from `wally.jpeg`. -/
theorem getImage_dataURI_shape_witness :
    "data:image/jpeg;base64,/9j/4A==" =
      "data:" ++ "image/jpeg" ++ ";base64," ++ EncodeToString [0xFF, 0xD8, 0xFF, 0xE0] ∧
    (EncodeToString [0xFF, 0xD8, 0xFF, 0xE0]).length = 4 * (([0xFF, 0xD8, 0xFF, 0xE0].length + 2) / 3) ∧
    (∀ c ∈ (EncodeToString [0xFF, 0xD8, 0xFF, 0xE0]).data, isBase64Char c = true) :=
  getImage_dataURI_shape lowerASCII [] (oneFile "wally.jpeg" [0xFF, 0xD8, 0xFF, 0xE0])
    "wally.jpeg" [0xFF, 0xD8, 0xFF, 0xE0] "image/jpeg" "data:image/jpeg;base64,/9j/4A=="
    (by decide) (by decide)

/-- C3. Encode/decode round trip: when `getImage` succeeds on the bytes
`data`, what is left of the data URI after its first `;base64,` decodes, with
the standard padded decoder, to `data` exactly.  (It holds for the empty
sequence as well as for the non-empty ones.) -/
theorem getImage_roundtrip (unicodeToLower : Char → Char) (osArgs : List String)
    (fs : FileSystem) (imagePath : String) (data : List Nat) (contentType dataURI : String)
    (hbytes : IsByteBuffer data)
    (hread : fs.readFile (argPath osArgs imagePath) = some data)
    (h : getImage unicodeToLower osArgs fs imagePath = .ok (contentType, dataURI)) :
    ∃ payload, afterFirst ";base64,".data dataURI.data = some payload ∧
      DecodeString (String.mk payload) = some data := by
  have hstat : fs.notExist (argPath osArgs imagePath) = false := by
    cases hs : fs.notExist (argPath osArgs imagePath) with
    | false => rfl
    | true => simp [getImage, hs] at h
  rw [getImage_ok unicodeToLower osArgs fs imagePath data hstat hread] at h
  simp only [Except.ok.injEq, Prod.mk.injEq] at h
  obtain ⟨h1, h2⟩ := h
  rw [h1] at h2
  have hcomma : ',' ∉ contentType.data := by
    rw [← h1]
    split
    · exact getContentTypeFromExtension_no_comma _ _
    · exact DetectContentType_no_comma _
  have hpre : ',' ∉ "data:".data ++ contentType.data := by
    intro hm
    rcases List.mem_append.1 hm with hm | hm
    · revert hm; decide
    · exact hcomma hm
  refine ⟨(EncodeToString data).data, ?_, DecodeString_EncodeToString data hbytes⟩
  rw [← h2]
  simp only [String.data_append]
  exact afterFirst_marker _ _ hpre

/-- The round trip at the three bytes `FF D8 FF` read from `wally.jpeg`. -/
theorem getImage_roundtrip_witness :
    ∃ payload, afterFirst ";base64,".data "data:image/jpeg;base64,/9j/".data = some payload ∧
      DecodeString (String.mk payload) = some [0xFF, 0xD8, 0xFF] :=
  getImage_roundtrip lowerASCII [] (oneFile "wally.jpeg" [0xFF, 0xD8, 0xFF]) "wally.jpeg"
    [0xFF, 0xD8, 0xFF] "image/jpeg" "data:image/jpeg;base64,/9j/"
    (by decide) (by decide) (by decide)

/-! ## `getContentTypeFromExtension` -/

theorem extLoop_eq_scanRev (path : List Char) :
    ∀ n, n ≤ path.length → extLoop path n = scanRev (path.take n).reverse (path.drop n)
  | 0, _ => by simp [extLoop, scanRev]
  | n + 1, hn => by
      have hlt : n < path.length := hn
      have ih := extLoop_eq_scanRev path n (Nat.le_of_lt hlt)
      have htake : (path.take (n + 1)).reverse = path[n] :: (path.take n).reverse := by
        rw [List.take_succ, List.getElem?_eq_getElem hlt]
        simp
      have hdrop : path.drop n = path[n] :: path.drop (n + 1) := List.drop_eq_getElem_cons hlt
      rw [extLoop, htake, scanRev, List.getD_eq_getElem path ' ' hlt, ih, hdrop]

theorem scanRev_eq (r : List Char) : ∀ suffix : List Char,
    scanRev r suffix =
      if '.' ∈ r.takeWhile (fun x => x != '/') then
        '.' :: (((r.takeWhile fun x => x != '/').takeWhile fun x => x != '.').reverse ++ suffix)
      else [] := by
  induction r with
  | nil => intro suffix; simp [scanRev]
  | cons c r ih =>
      intro suffix
      by_cases h1 : c = '/'
      · subst h1
        simp [scanRev, isPathSeparator]
      · by_cases h2 : c = '.'
        · subst h2
          simp [scanRev, isPathSeparator]
        · have h2' : ¬ '.' = c := fun h => h2 h.symm
          simp [scanRev, isPathSeparator, h1, h2, h2', ih (c :: suffix)]

/-- The loop of `filepath.Ext` computes the extension of the specification. -/
theorem Ext_eq_finalExtension (path : String) : Ext path = finalExtension path := by
  unfold Ext finalExtension lastElement afterLast
  rw [extLoop_eq_scanRev path.data path.data.length (Nat.le_refl _), List.take_length,
    List.drop_length, scanRev_eq]
  simp only [List.reverse_reverse, List.mem_reverse, List.append_nil]
  split <;> rfl

theorem getContentTypeFromExtension_eq_tableType (unicodeToLower : Char → Char)
    (filename : String) :
    getContentTypeFromExtension unicodeToLower filename =
      tableType (ToLower unicodeToLower (Ext filename)) := by
  unfold getContentTypeFromExtension
  simp only []
  generalize ToLower unicodeToLower (Ext filename) = ext
  by_cases h1 : ext = ".jpg"
  · subst h1; decide
  by_cases h2 : ext = ".jpeg"
  · subst h2; decide
  by_cases h3 : ext = ".png"
  · subst h3; decide
  by_cases h4 : ext = ".gif"
  · subst h4; decide
  by_cases h5 : ext = ".webp"
  · subst h5; decide
  by_cases h6 : ext = ".bmp"
  · subst h6; decide
  by_cases h7 : ext = ".svg"
  · subst h7; decide
  simp [h1, h2, h3, h4, h5, h6, h7, tableType, extensionTable, List.lookup,
    beq_false_of_ne h1, beq_false_of_ne h2, beq_false_of_ne h3, beq_false_of_ne h4,
    beq_false_of_ne h5, beq_false_of_ne h6, beq_false_of_ne h7]


theorem extLoop_full (path : List Char) :
    extLoop path path.length = scanRev path.reverse [] := by
  rw [extLoop_eq_scanRev path path.length (Nat.le_refl _), List.take_length, List.drop_length]

set_option maxRecDepth 100000 in
theorem swapCaseASCII_ascii :
    ∀ n, n < 128 →
      (isASCII (swapCaseASCII (Char.ofNat n)) = true ∧
        lowerASCII (swapCaseASCII (Char.ofNat n)) = lowerASCII (Char.ofNat n) ∧
        (swapCaseASCII (Char.ofNat n) = '/' ↔ Char.ofNat n = '/') ∧
        (swapCaseASCII (Char.ofNat n) = '.' ↔ Char.ofNat n = '.')) := by
  decide

theorem swapCaseASCII_other (c : Char) (h : ¬ c.toNat < 128) : swapCaseASCII c = c := by
  unfold swapCaseASCII
  rw [if_neg (by omega), if_neg (by omega)]

/-- A change of ASCII case keeps a character ASCII or not, keeps its ASCII
lower case, and keeps separators and dots. -/
theorem caseTwin_facts (a b : Char) (h : caseTwin a b) :
    isASCII b = isASCII a ∧ lowerASCII b = lowerASCII a ∧
      (b = '/' ↔ a = '/') ∧ (b = '.' ↔ a = '.') := by
  rcases h with rfl | rfl
  · exact ⟨rfl, rfl, Iff.rfl, Iff.rfl⟩
  · by_cases ha : a.toNat < 128
    · have h := swapCaseASCII_ascii a.toNat ha
      rw [Char.ofNat_toNat] at h
      have hasc : isASCII a = true := by simpa [isASCII] using ha
      exact ⟨by rw [h.1, hasc], h.2.1, h.2.2.1, h.2.2.2⟩
    · rw [swapCaseASCII_other a ha]
      exact ⟨rfl, rfl, Iff.rfl, Iff.rfl⟩

theorem scanRev_caseTwin {r₁ r₂ : List Char} (hr : List.Forall₂ caseTwin r₁ r₂) :
    ∀ {s₁ s₂ : List Char}, List.Forall₂ caseTwin s₁ s₂ →
      List.Forall₂ caseTwin (scanRev r₁ s₁) (scanRev r₂ s₂) := by
  induction hr with
  | nil => intro s₁ s₂ _; exact List.Forall₂.nil
  | @cons a b r₁ r₂ hab _ ih =>
      intro s₁ s₂ hs
      have hf := caseTwin_facts a b hab
      simp only [scanRev, isPathSeparator, beq_iff_eq, hf.2.2.1, hf.2.2.2]
      split
      · exact List.Forall₂.nil
      · split
        · exact List.Forall₂.cons hab hs
        · exact ih (List.Forall₂.cons hab hs)

theorem Ext_caseTwin (f g : String) (h : ASCIICaseChange f g) :
    List.Forall₂ caseTwin (Ext f).data (Ext g).data := by
  show List.Forall₂ caseTwin (extLoop f.data f.data.length) (extLoop g.data g.data.length)
  rw [extLoop_full, extLoop_full]
  exact scanRev_caseTwin (List.rel_reverse h) List.Forall₂.nil

theorem caseTwin_lower (unicodeToLower : Char → Char)
    (hascii : ∀ c, isASCII c = true → unicodeToLower c = lowerASCII c)
    {x y : List Char} (h : List.Forall₂ caseTwin x y) :
    x.all isASCII = y.all isASCII ∧ x.map lowerASCII = y.map lowerASCII ∧
      x.map unicodeToLower = y.map unicodeToLower := by
  induction h with
  | nil => exact ⟨rfl, rfl, rfl⟩
  | @cons a b _ _ hab _ ih =>
      have hf := caseTwin_facts a b hab
      have hc : unicodeToLower a = unicodeToLower b := by
        cases ha : isASCII a with
        | true => rw [hascii a ha, hascii b (hf.1.trans ha), hf.2.1]
        | false =>
            rcases hab with rfl | rfl
            · rfl
            · have hn : ¬ a.toNat < 128 := by simpa [isASCII] using ha
              rw [swapCaseASCII_other a hn]
      exact ⟨by simp only [List.all_cons, hf.1, ih.1],
        by simp only [List.map_cons, hf.2.1, ih.2.1],
        by simp only [List.map_cons, hc, ih.2.2]⟩

theorem ToLower_caseTwin (unicodeToLower : Char → Char)
    (hascii : ∀ c, isASCII c = true → unicodeToLower c = lowerASCII c)
    (x y : String) (h : List.Forall₂ caseTwin x.data y.data) :
    ToLower unicodeToLower x = ToLower unicodeToLower y := by
  have hl := caseTwin_lower unicodeToLower hascii h
  unfold ToLower
  rw [hl.1, hl.2.1, hl.2.2]

/-- C9, as stated, fails in its last sentence: `S` is the upper case of the
long s (U+017F) and `I` the upper case of the dotless i (U+0131), and
`strings.ToLower` leaves these two lower-case letters as they are; so
`x.ſvg` is typed `image/png` and `x.Svg` is typed `image/svg+xml`, `x.gıf` is
typed `image/png` and `x.gIf` is typed `image/gif`. -/
theorem getContentTypeFromExtension_case_counterexample :
    (('ſ', 'S', 'ſ') ∈ caseRangesSample ∧ lowerASCII 'ſ' = 'ſ' ∧
      getContentTypeFromExtension lowerASCII "x.ſvg" = "image/png" ∧
      getContentTypeFromExtension lowerASCII "x.Svg" = "image/svg+xml") ∧
    (('ı', 'I', 'ı') ∈ caseRangesSample ∧ lowerASCII 'ı' = 'ı' ∧
      getContentTypeFromExtension lowerASCII "x.gıf" = "image/png" ∧
      getContentTypeFromExtension lowerASCII "x.gIf" = "image/gif") := by
  decide

/-- C9, amended. `getContentTypeFromExtension` is the fixed table applied to
the lower-cased final extension, the suffix from the last dot of the last path
element: the table type for `.jpg`, `.jpeg`, `.png`, `.gif`, `.webp`, `.bmp`
and `.svg`, and `image/png` for every other name, a name with no extension
included.  The result is unchanged when the case of any ASCII letters of the
name is changed, as from `a.jpeg` to `A.JPEG`. -/
theorem getContentTypeFromExtension_table (unicodeToLower : Char → Char) (filename : String) :
    getContentTypeFromExtension unicodeToLower filename =
      tableType (ToLower unicodeToLower (finalExtension filename)) ∧
    ('.' ∉ lastElement filename →
      getContentTypeFromExtension unicodeToLower filename = "image/png") ∧
    (∀ other : String,
      (∀ c, isASCII c = true → unicodeToLower c = lowerASCII c) →
      ASCIICaseChange filename other →
      getContentTypeFromExtension unicodeToLower other =
        getContentTypeFromExtension unicodeToLower filename) := by
  have htable := getContentTypeFromExtension_eq_tableType unicodeToLower filename
  rw [Ext_eq_finalExtension] at htable
  refine ⟨htable, ?_, ?_⟩
  · intro hdot
    have hempty : ToLower unicodeToLower "" = "" := rfl
    rw [htable, finalExtension, if_neg hdot, hempty]
    decide
  · intro other hascii hchange
    rw [getContentTypeFromExtension_eq_tableType, getContentTypeFromExtension_eq_tableType,
      ToLower_caseTwin unicodeToLower hascii (Ext filename) (Ext other)
        (Ext_caseTwin filename other hchange)]

/-- The table at `a.jpeg` and `A.JPEG`, at a name with no extension, and at a
name whose ASCII letters change case next to a letter outside ASCII. -/
theorem getContentTypeFromExtension_table_witness :
    getContentTypeFromExtension lowerASCII "a.jpeg" = "image/jpeg" ∧
    getContentTypeFromExtension lowerASCII "A.JPEG" = "image/jpeg" ∧
    getContentTypeFromExtension lowerASCII "A.JPEG" =
      getContentTypeFromExtension lowerASCII "a.jpeg" ∧
    getContentTypeFromExtension lowerASCII "dir.d/README" = "image/png" ∧
    getContentTypeFromExtension lowerASCII "CAFÉ.GIF" =
      getContentTypeFromExtension lowerASCII "cafÉ.gif" :=
  ⟨by decide, by decide,
   (getContentTypeFromExtension_table lowerASCII "a.jpeg").2.2 "A.JPEG" (fun _ _ => rfl)
     (by decide),
   (getContentTypeFromExtension_table lowerASCII "dir.d/README").2.1 (by decide),
   (getContentTypeFromExtension_table lowerASCII "cafÉ.gif").2.2 "CAFÉ.GIF"
     (fun _ _ => rfl) (by decide)⟩

/-! ## The reply of the model -/

theorem printParts_data (parts : List Part) :
    (printParts parts).data =
      ((parts.filter Part.IsText).map fun p => p.Text.data ++ ['\n']).flatten := by
  induction parts with
  | nil => rfl
  | cons part rest ih =>
      cases h : part.IsText with
      | true =>
          simp only [printParts, h, if_true, String.data_append, ih, List.filter_cons_of_pos,
            List.map_cons, List.flatten_cons]
      | false =>
          simp only [printParts, h, Bool.false_eq_true, if_false, String.data_append, ih,
            List.filter_cons_of_neg, not_false_eq_true]
          rfl

theorem printParts_eq_join (parts : List Part) :
    printParts parts = String.join ((parts.filter Part.IsText).map fun p => p.Text ++ "\n") := by
  apply String.ext
  rw [printParts_data, String.data_join, List.map_map]
  rfl

theorem printParts_eq_empty_iff (parts : List Part) :
    printParts parts = "" ↔ ∀ p ∈ parts, p.IsText = false := by
  induction parts with
  | nil => simp [printParts]
  | cons part rest ih =>
      cases h : part.IsText with
      | true =>
          simp only [printParts, h, if_true, List.mem_cons, forall_eq_or_imp, Bool.true_eq_false,
            false_and, iff_false]
          intro he
          have := congrArg String.data he
          simp at this
      | false =>
          simp only [printParts, h, Bool.false_eq_true, if_false, List.mem_cons,
            forall_eq_or_imp, true_and]
          rw [← ih]
          constructor
          · intro he
            apply String.ext
            have := congrArg String.data he
            simpa using this
          · intro he
            rw [he]
            rfl

theorem main_ok (unicodeToLower : Char → Char) (osArgs : List String) (fs : FileSystem)
    (generate : ModelRequest → Except String ModelResponse) (contentType dataURI : String)
    (response : ModelResponse)
    (himage : getImage unicodeToLower osArgs fs "wally.jpeg" = .ok (contentType, dataURI))
    (hgen : generate (buildRequest contentType dataURI) = .ok response) :
    main unicodeToLower osArgs fs none generate =
      { stdout := "Sending request to llava model...\n" ++ printResponse response,
        exitCode := 0 } := by
  simp only [main, himage, hgen]

/-- C5, as stated, fails: for the parts `[Text("a"), Media(...), Text("b")]`
the text of the specification is `ab`, but the loop writes `a`, a line break,
`b` and a line break, after the heading. -/
theorem main_text_counterexample :
    concatText [NewTextPart "a", NewMediaPart "image/png" "data:image/png;base64,AA==",
      NewTextPart "b"] = "ab" ∧
    printParts [NewTextPart "a", NewMediaPart "image/png" "data:image/png;base64,AA==",
      NewTextPart "b"] = "a\nb\n" ∧
    printParts [NewTextPart "a", NewMediaPart "image/png" "data:image/png;base64,AA==",
      NewTextPart "b"] ≠
      concatText [NewTextPart "a", NewMediaPart "image/png" "data:image/png;base64,AA==",
        NewTextPart "b"] ∧
    main lowerASCII [] (oneFile "wally.jpeg" [0xFF, 0xD8, 0xFF]) none
      (fun _ => .ok { Message := { Role := .model, Content :=
        [NewTextPart "a", NewMediaPart "image/png" "data:image/png;base64,AA==",
          NewTextPart "b"] } }) =
      { stdout := "Sending request to llava model...\n\nModel Response:\na\nb\n",
        exitCode := 0 } := by
  decide

/-- C5, amended. Text extraction: when the model replies, the program writes,
after its two heading lines, the payloads of the text parts of the reply in
encounter order, each followed by a line break, the other parts being passed
over; it then returns normally. -/
theorem main_prints_text_lines (unicodeToLower : Char → Char) (osArgs : List String)
    (fs : FileSystem) (generate : ModelRequest → Except String ModelResponse)
    (contentType dataURI : String) (response : ModelResponse)
    (himage : getImage unicodeToLower osArgs fs "wally.jpeg" = .ok (contentType, dataURI))
    (hgen : generate (buildRequest contentType dataURI) = .ok response) :
    main unicodeToLower osArgs fs none generate =
      { stdout := "Sending request to llava model...\n" ++ ("\nModel Response:\n" ++
          String.join ((response.Message.Content.filter Part.IsText).map
            fun p => p.Text ++ "\n")),
        exitCode := 0 } := by
  rw [main_ok unicodeToLower osArgs fs generate contentType dataURI response himage hgen,
    printResponse, printParts_eq_join]

/-- The amended C5 at the parts `[Text("a"), Media(...), Text("b")]`. -/
theorem main_prints_text_lines_witness :
    main lowerASCII [] (oneFile "wally.jpeg" [0xFF, 0xD8, 0xFF]) none
      (fun _ => .ok { Message := { Role := .model, Content :=
        [NewTextPart "a", NewMediaPart "image/png" "data:image/png;base64,AA==",
          NewTextPart "b"] } }) =
      { stdout := "Sending request to llava model...\n" ++ ("\nModel Response:\n" ++
          String.join (([NewTextPart "a", NewMediaPart "image/png" "data:image/png;base64,AA==",
            NewTextPart "b"].filter Part.IsText).map fun p => p.Text ++ "\n")),
        exitCode := 0 } :=
  main_prints_text_lines lowerASCII [] (oneFile "wally.jpeg" [0xFF, 0xD8, 0xFF])
    (fun _ => .ok { Message := { Role := .model, Content :=
        [NewTextPart "a", NewMediaPart "image/png" "data:image/png;base64,AA==",
          NewTextPart "b"] } })
    "image/jpeg" "data:image/jpeg;base64,/9j/" _ (by decide) rfl

/-- C6, as stated, fails: for a reply with one media part and no text part,
and for a reply with no part at all, the program writes its heading lines and
nothing else, and returns normally (exit status 0): no error is signalled. -/
theorem main_no_text_counterexample :
    main lowerASCII [] (oneFile "wally.jpeg" [0xFF, 0xD8, 0xFF]) none
      (fun _ => .ok { Message := { Role := .model, Content :=
        [NewMediaPart "image/png" "data:image/png;base64,AA=="] } }) =
      { stdout := "Sending request to llava model...\n\nModel Response:\n", exitCode := 0 } ∧
    main lowerASCII [] (oneFile "wally.jpeg" [0xFF, 0xD8, 0xFF]) none
      (fun _ => .ok { Message := { Role := .model, Content := [] } }) =
      { stdout := "Sending request to llava model...\n\nModel Response:\n", exitCode := 0 } := by
  decide

/-- C6, amended. No text content is not an error: whenever the model replies,
the program returns normally (exit status 0), and what it writes is its heading
lines and nothing else exactly when the reply has no text part. -/
theorem main_no_text_no_error (unicodeToLower : Char → Char) (osArgs : List String)
    (fs : FileSystem) (generate : ModelRequest → Except String ModelResponse)
    (contentType dataURI : String) (response : ModelResponse)
    (himage : getImage unicodeToLower osArgs fs "wally.jpeg" = .ok (contentType, dataURI))
    (hgen : generate (buildRequest contentType dataURI) = .ok response) :
    (main unicodeToLower osArgs fs none generate).exitCode = 0 ∧
    ((main unicodeToLower osArgs fs none generate).stdout =
        "Sending request to llava model...\n\nModel Response:\n" ↔
      ∀ p ∈ response.Message.Content, p.IsText = false) := by
  rw [main_ok unicodeToLower osArgs fs generate contentType dataURI response himage hgen]
  refine ⟨rfl, ?_⟩
  rw [← printParts_eq_empty_iff]
  simp only [printResponse]
  constructor
  · intro he
    apply String.ext
    have := congrArg String.data he
    simpa using this
  · intro he
    rw [he]
    decide

/-- The amended C6 at a reply holding one media part. -/
theorem main_no_text_no_error_witness :
    (main lowerASCII [] (oneFile "wally.jpeg" [0xFF, 0xD8, 0xFF]) none
      (fun _ => .ok { Message := { Role := .model, Content :=
        [NewMediaPart "image/png" "data:image/png;base64,AA=="] } })).exitCode = 0 ∧
    ((main lowerASCII [] (oneFile "wally.jpeg" [0xFF, 0xD8, 0xFF]) none
      (fun _ => .ok { Message := { Role := .model, Content :=
        [NewMediaPart "image/png" "data:image/png;base64,AA=="] } })).stdout =
        "Sending request to llava model...\n\nModel Response:\n" ↔
      ∀ p ∈ [NewMediaPart "image/png" "data:image/png;base64,AA=="], p.IsText = false) :=
  main_no_text_no_error lowerASCII [] (oneFile "wally.jpeg" [0xFF, 0xD8, 0xFF])
    (fun _ => .ok { Message := { Role := .model, Content :=
        [NewMediaPart "image/png" "data:image/png;base64,AA=="] } })
    "image/jpeg" "data:image/jpeg;base64,/9j/" _ (by decide) rfl

/-! ## The flow `shortTerrorFlow` -/

/-- C10. One run of the handler of `shortTerrorFlow` calls the backend at most
once.  If the model is not found it returns the empty string with an error and
leaves the world as it is (no call).  If the call of the backend fails it
returns the empty string with the error of the backend, and otherwise the text
of the response with no error; in both cases the one call made is the request
built from the input. -/
theorem shortTerrorFlow_no_retry {R E σ : Type} (m : Option (Base.Model R E σ))
    (text : R → String) (input : String) (w : Base.World σ) :
    (∃ sent, (Base.shortTerrorFlow m text input w).2.calls = w.calls ++ sent ∧
      sent.length ≤ 1) ∧
    (m = none →
      (Base.shortTerrorFlow m text input w).1.1 = "" ∧
      (∃ msg, (Base.shortTerrorFlow m text input w).1.2 = some (.modelNotFound msg)) ∧
      (Base.shortTerrorFlow m text input w).2.calls = w.calls) ∧
    (∀ model err, m = some model →
      (model (Base.newRequest input) w.state).1 = .error err →
      (Base.shortTerrorFlow m text input w).1 = ("", some (.backend err)) ∧
      (Base.shortTerrorFlow m text input w).2.calls = w.calls ++ [Base.newRequest input]) ∧
    (∀ model resp, m = some model →
      (model (Base.newRequest input) w.state).1 = .ok resp →
      (Base.shortTerrorFlow m text input w).1 = (text resp, none) ∧
      (Base.shortTerrorFlow m text input w).2.calls = w.calls ++ [Base.newRequest input]) := by
  refine ⟨?_, ?_, ?_, ?_⟩
  · cases m with
    | none => exact ⟨[], by simp [Base.shortTerrorFlow], by simp⟩
    | some model =>
        refine ⟨[Base.newRequest input], ?_, by simp⟩
        simp only [Base.shortTerrorFlow, Base.Model.Generate]
        cases (model (Base.newRequest input) w.state).1 <;> rfl
  · rintro rfl
    exact ⟨rfl, ⟨_, rfl⟩, rfl⟩
  · rintro model err rfl herr
    simp [Base.shortTerrorFlow, Base.Model.Generate, herr]
  · rintro model resp rfl hresp
    simp [Base.shortTerrorFlow, Base.Model.Generate, hresp]

/-- The handler at the flaky backend, first and second run. -/
theorem shortTerrorFlow_no_retry_witness :
    ((Base.shortTerrorFlow (some flakyBackend) id "pumpkins" { state := 0, calls := [] }).1
        = ("", some (.backend "quota exceeded")) ∧
      (Base.shortTerrorFlow (some flakyBackend) id "pumpkins" { state := 0, calls := [] }).2.calls
        = [] ++ [Base.newRequest "pumpkins"]) ∧
    ((Base.shortTerrorFlow (some flakyBackend) id "pumpkins" { state := 1, calls := [] }).1
        = (id "The pumpkins were watching.", none) ∧
      (Base.shortTerrorFlow (some flakyBackend) id "pumpkins" { state := 1, calls := [] }).2.calls
        = [] ++ [Base.newRequest "pumpkins"]) ∧
    ((Base.shortTerrorFlow (none : Option (Base.Model String String Nat)) id "pumpkins"
        { state := 0, calls := [] }).1.1 = "" ∧
      (∃ msg, (Base.shortTerrorFlow (none : Option (Base.Model String String Nat)) id "pumpkins"
        { state := 0, calls := [] }).1.2 = some (.modelNotFound msg)) ∧
      (Base.shortTerrorFlow (none : Option (Base.Model String String Nat)) id "pumpkins"
        { state := 0, calls := [] }).2.calls = []) :=
  ⟨(shortTerrorFlow_no_retry (some flakyBackend) id "pumpkins" { state := 0, calls := [] }).2.2.1
      flakyBackend "quota exceeded" rfl rfl,
   (shortTerrorFlow_no_retry (some flakyBackend) id "pumpkins" { state := 1, calls := [] }).2.2.2
      flakyBackend "The pumpkins were watching." rfl rfl,
   (shortTerrorFlow_no_retry (none : Option (Base.Model String String Nat)) id "pumpkins"
      { state := 0, calls := [] }).2.1 rfl⟩

end GenkitExamples
